import Mathlib

/-!
Verification of the AI News Tracker article pipeline (rss-proxy.js,
filters.js, storage.js) against its specification.

Modeling conventions for the shallow embedding:
* JS strings are Lean `String`; character-level work uses `String.data`
  (`List Char`).  JS `toLowerCase`/`toUpperCase` are modeled character-wise.
* JS numbers used as timestamps are `Int` (milliseconds); `new Date(s)`
  parsing is modeled by `parseDate : String → Option Int` (`none` = NaN)
  and `Date.prototype.toISOString` by the injective rendering `isoOfTime`,
  its partial inverse.  Only the order and round-trip of timestamps matter
  to the verified properties, never calendar arithmetic.
* `localStorage` (storage.js) is modeled by the `Storage` state record;
  JSON (de)serialization round-trips structured values and is elided.
  Quota / corrupted-data failure paths of storage.js are not modeled:
  in the model storage always succeeds.
* `Array.prototype.sort` is modeled by a stable insertion sort.  For a
  consistent comparator ECMAScript pins the result to exactly the stable
  sorted permutation, which this model produces; for an inconsistent
  comparator (the NaN case) the result is implementation-defined and the
  model is one compliant choice.  A comparator returning NaN is treated
  as returning +0, per ECMAScript CompareArrayElements.
-/

/-! ## String helpers (models of JS built-ins) -/

/-- Model of JS `String.prototype.toLowerCase` (character-wise; the feeds and
keyword tables only exercise ASCII). -/
def jsToLower (s : String) : String := ⟨s.data.map Char.toLower⟩

/-- Substring test on character lists: does `needle` occur contiguously in
`hay`? -/
def hasSubstr : List Char → List Char → Bool
  | [], needle => needle.isPrefixOf []
  | hay@(_ :: t), needle => needle.isPrefixOf hay || hasSubstr t needle

/-- Model of JS `String.prototype.includes`. -/
def jsIncludes (s sub : String) : Bool := hasSubstr s.data sub.data

/-- Model of the JS falsy-string fallback `a || b` (the empty string is the
only falsy string value in play). -/
def jsOr (a b : String) : String := if a = "" then b else a

/-! ## Timestamps and dates -/

/-- Decimal rendering of a natural number, least-significant digit last.
The first argument is recursion fuel (passing `n` itself always suffices,
since the digit count of `n` is at most `n`). -/
def toDigits10 : Nat → Nat → List Char
  | 0, n => [Char.ofNat (48 + n % 10)]
  | fuel + 1, n =>
    if n < 10 then [Char.ofNat (48 + n)]
    else toDigits10 fuel (n / 10) ++ [Char.ofNat (48 + n % 10)]

/-- Model of `Date.prototype.toISOString`: an injective rendering of the
millisecond timestamp.  The pipeline never inspects the text of a date, it
only parses dates back (`parseDate`) and compares the resulting numbers, so
the rendering scheme is immaterial. -/
def isoOfTime (t : Int) : String :=
  if t < 0 then "-" ++ ⟨toDigits10 t.natAbs t.natAbs⟩ else ⟨toDigits10 t.natAbs t.natAbs⟩

/-- Parse a non-empty run of decimal digits. -/
def parseDigits (l : List Char) : Option Nat :=
  if l = [] then none
  else
    l.foldl
      (fun acc c =>
        match acc with
        | none => none
        | some n => if c.isDigit then some (n * 10 + (c.toNat - 48)) else none)
      (some 0)

/-- Model of `new Date(s).getTime()`: `none` models NaN (an unparseable
date string); a timestamp rendered by `isoOfTime` parses back to itself. -/
def parseDate (s : String) : Option Int :=
  match s.data with
  | '-' :: ds => (parseDigits ds).map (fun n => -(n : Int))
  | ds => (parseDigits ds).map (fun n => (n : Int))

/-! ## Data model -/

/-- A raw feed item as delivered by either proxy (rss-proxy.js).  Absent
fields are the empty string (the only falsy value the code tests for). -/
structure RawItem where
  title : String
  description : String
  content : String
  link : String
  pubDate : String
  guid : String
deriving DecidableEq, Repr

/-- The pipeline's uniform article record (normalizeArticle's output shape). -/
structure Article where
  id : String
  title : String
  description : String
  link : String
  pubDate : String
  source : String
  category : String
  isFavorite : Bool
deriving DecidableEq, Repr

/-! ## generateArticleId (rss-proxy.js: 32-bit rolling string hash) -/

/-- JS ToInt32: reduce an integer to the signed 32-bit range. -/
def toInt32 (n : Int) : Int := (n + 2 ^ 31) % 2 ^ 32 - 2 ^ 31

/-- One step of the hash loop body:
`hash = ((hash << 5) - hash) + char; hash = hash & hash`.
`hash << 5` is ToInt32 of `hash * 32`; `hash & hash` is ToInt32 again. -/
def hashStep (h : Int) (c : Char) : Int :=
  toInt32 (toInt32 (h * 32) - h + c.toNat)

/-- Base-36 digit, lowercase (JS `Number.prototype.toString(36)`). -/
def toDigit36 (n : Nat) : Char :=
  if n < 10 then Char.ofNat (48 + n) else Char.ofNat (87 + n)

/-- Base-36 rendering of a natural number, mirroring JS `toString(36)`.
The first argument is recursion fuel (passing `n` itself always suffices). -/
def toString36 : Nat → Nat → List Char
  | 0, n => [toDigit36 (n % 36)]
  | fuel + 1, n =>
    if n < 36 then [toDigit36 n]
    else toString36 fuel (n / 36) ++ [toDigit36 (n % 36)]

/-- rss-proxy.js `generateArticleId`. -/
def generateArticleId (url : String) : String :=
  "article-" ++ ⟨toString36 (url.data.foldl hashStep 0).natAbs (url.data.foldl hashStep 0).natAbs⟩

/-! ## cleanDescription (rss-proxy.js) -/

/-- Drop characters up to and including the next `>`, or report that no `>`
exists. -/
def dropThroughGt : List Char → Option (List Char)
  | [] => none
  | '>' :: r => some r
  | _ :: r => dropThroughGt r

theorem dropThroughGt_length (l r : List Char) (h : dropThroughGt l = some r) :
    r.length < l.length := by
  induction l generalizing r with
  | nil => simp [dropThroughGt] at h
  | cons c t ih =>
    rw [dropThroughGt.eq_def] at h
    split at h
    · exact absurd h (by simp)
    · rename_i r1 heq
      injection heq with h2 h3
      injection h with h1
      subst h3
      subst h1
      simp
    · rename_i c2 r1 heq
      injection heq with h2 h3
      subst h3
      have := ih r h
      simp
      omega

/-- Model of `html.replace(/<[^>]*>/g, '')`: each `<` together with
everything up to the nearest following `>` is removed; a `<` with no later
`>` cannot start a match and stays literal (and then no later match can
complete either).  The first argument is recursion fuel (each step consumes
at least one character, so passing the input length always suffices). -/
def stripTagsAux : Nat → List Char → List Char
  | _, [] => []
  | 0, l => l
  | fuel + 1, '<' :: rest =>
    match dropThroughGt rest with
    | some rest' => stripTagsAux fuel rest'
    | none => '<' :: rest
  | fuel + 1, c :: rest => c :: stripTagsAux fuel rest

def stripTags (l : List Char) : List Char := stripTagsAux l.length l

/-- Modeled platform behavior: the browser "textarea" HTML-entity decoding,
restricted to the common named/numeric entities; unrecognized `&`-sequences
are left intact, exactly as a browser leaves them. -/
def decodeEntities : List Char → List Char
  | [] => []
  | '&' :: 'a' :: 'm' :: 'p' :: ';' :: rest => '&' :: decodeEntities rest
  | '&' :: 'l' :: 't' :: ';' :: rest => '<' :: decodeEntities rest
  | '&' :: 'g' :: 't' :: ';' :: rest => '>' :: decodeEntities rest
  | '&' :: 'q' :: 'u' :: 'o' :: 't' :: ';' :: rest => '"' :: decodeEntities rest
  | '&' :: '#' :: '3' :: '9' :: ';' :: rest => '\x27' :: decodeEntities rest
  | '&' :: 'n' :: 'b' :: 's' :: 'p' :: ';' :: rest => ' ' :: decodeEntities rest
  | c :: rest => c :: decodeEntities rest

/-- rss-proxy.js `cleanDescription`: strip tags, decode entities, truncate to
200 characters with a `...` marker, default to a placeholder when empty. -/
def cleanDescription (html : String) : String :=
  let text := stripTags html.data
  let decoded := decodeEntities text
  if 200 < decoded.length then ⟨decoded.take 200⟩ ++ "..."
  else if decoded.isEmpty then "No description available."
  else ⟨decoded⟩

/-! ## extractSource (rss-proxy.js) -/

/-- Modeled platform behavior: `new URL(url).hostname`, restricted to
http(s) URLs; anything else throws in the browser, modeled as `none`. -/
def parseHost (url : String) : Option String :=
  if url.startsWith "http://" then
    some ⟨(url.drop 7).data.takeWhile (fun c => c ≠ '/' && c ≠ ':' && c ≠ '?' && c ≠ '#')⟩
  else if url.startsWith "https://" then
    some ⟨(url.drop 8).data.takeWhile (fun c => c ≠ '/' && c ≠ ':' && c ≠ '?' && c ≠ '#')⟩
  else none

/-- Model of JS `String.prototype.replace` with a plain-string pattern and
empty replacement: the first occurrence of `pat` is removed. -/
def removeFirst : List Char → List Char → List Char
  | s, pat =>
    if pat.isPrefixOf s then s.drop pat.length
    else
      match s with
      | [] => []
      | c :: t => c :: removeFirst t pat

/-- JS `word.charAt(0).toUpperCase() + word.slice(1)`. -/
def capitalizeWord (w : String) : String :=
  match w.data with
  | [] => ""
  | c :: rest => ⟨c.toUpper :: rest⟩

/-- rss-proxy.js `extractSource`. -/
def extractSource (url : String) : String :=
  match parseHost url with
  | none => "Unknown Source"
  | some hostname =>
    let host : String := ⟨removeFirst hostname.data "www.".data⟩
    let firstLabel := (host.splitOn ".").headD ""
    String.intercalate " " ((firstLabel.splitOn "-").map capitalizeWord)

/-! ## normalizeArticle (rss-proxy.js) -/

/-- rss-proxy.js `normalizeArticle`; `now` models the wall clock read by
`new Date()`. -/
def normalizeArticle (now : Int) (rawArticle : RawItem) : Article :=
  { id := generateArticleId (jsOr rawArticle.link (jsOr rawArticle.guid ""))
    title := jsOr rawArticle.title "Untitled"
    description := cleanDescription (jsOr rawArticle.description (jsOr rawArticle.content ""))
    link := jsOr rawArticle.link (jsOr rawArticle.guid "#")
    pubDate := jsOr rawArticle.pubDate (isoOfTime now)
    source := extractSource rawArticle.link
    category := "industry-news"
    isFavorite := false }

/-! ## Category table and classifier (filters.js) -/

/-- One entry of the category table. -/
structure Category where
  id : String
  name : String
  keywords : List String
deriving DecidableEq, Repr

def catAll : Category := ⟨"all", "All News", []⟩

def catAiDesignTools : Category :=
  ⟨"ai-design-tools", "AI Design Tools",
    ["midjourney", "dall-e", "dall e", "dalle", "stable diffusion",
     "generative ai", "ai tool", "text to image", "image generation",
     "ai software", "design tool", "firefly", "leonardo ai"]⟩

def catVisualization : Category :=
  ⟨"visualization", "Visualization",
    ["rendering", "visualization", "visualisation", "vray", "v-ray",
     "3d render", "cgi", "3d visualization", "lumion", "enscape",
     "twinmotion", "unreal engine", "photorealistic", "3d model"]⟩

def catAutomation : Category :=
  ⟨"automation", "Automation",
    ["automation", "workflow", "productivity", "ai agent", "automate",
     "efficiency", "process automation", "task automation", "machine learning",
     "artificial intelligence workflow"]⟩

def catArchitectureAi : Category :=
  ⟨"architecture-ai", "Architecture AI",
    ["architecture", "architectural design", "building design", "bim",
     "parametric design", "generative design", "computational design",
     "architect", "building", "construction", "revit ai", "grasshopper"]⟩

def catInteriorDesignAi : Category :=
  ⟨"interior-design-ai", "Interior Design AI",
    ["interior design", "interior", "furniture", "space planning",
     "room design", "interior ai", "home design", "decor",
     "interior visualization"]⟩

def catIndustryNews : Category :=
  ⟨"industry-news", "Industry News",
    ["industry", "market", "business", "technology", "innovation",
     "news", "announcement", "launch", "company", "startup"]⟩

def catFavorites : Category := ⟨"favorites", "⭐ Favorites", []⟩

/-- filters.js `CATEGORIES`, in its object-literal (= iteration) order. -/
def CATEGORIES : List Category :=
  [catAll, catAiDesignTools, catVisualization, catAutomation,
   catArchitectureAi, catInteriorDesignAi, catIndustryNews, catFavorites]

/-- filters.js `AI_KEYWORDS`. -/
def AI_KEYWORDS : List String :=
  ["ai", "artificial intelligence", "machine learning", "ml",
   "generative", "neural", "deep learning", "algorithm",
   "automated", "automation", "computational", "intelligent",
   "midjourney", "dall-e", "dalle", "stable diffusion",
   "chatgpt", "gpt", "llm", "large language model"]

/-- The combined lowercased search text ``${title} ${description}``. -/
def contentOf (a : Article) : String :=
  jsToLower (a.title ++ " " ++ a.description)

/-- filters.js `isAIRelated`. -/
def isAIRelated (a : Article) : Bool :=
  AI_KEYWORDS.any (fun keyword => jsIncludes (contentOf a) (jsToLower keyword))

/-- The `for (const [categoryId, categoryData] of Object.entries(CATEGORIES))`
loop of filters.js `categorizeArticle`: skip `all`/`favorites`, return the
first category whose keyword list matches. -/
def findCategory (content : String) : List Category → Option String
  | [] => none
  | c :: rest =>
    if c.id = "all" || c.id = "favorites" then findCategory content rest
    else if c.keywords.any (fun keyword => jsIncludes content (jsToLower keyword)) then
      some c.id
    else findCategory content rest

/-- filters.js `categorizeArticle`. -/
def categorizeArticle (a : Article) : Option Article :=
  if !isAIRelated a then none
  else
    let content := contentOf a
    match findCategory content CATEGORIES with
    | some categoryId => some { a with category := categoryId }
    | none => some { a with category := "industry-news" }

/-! ## storage.js: favorites and article cache over localStorage -/

/-- A persisted favorite record `{id, savedAt}`. -/
structure FavRecord where
  id : String
  savedAt : String
deriving DecidableEq, Repr

/-- storage.js cache record `{timestamp, articles, expiresAt}`. -/
structure CacheEntry where
  timestamp : Int
  articles : List Article
  expiresAt : Int
deriving DecidableEq, Repr

/-- The `newsTracker_`-prefixed keys of localStorage that storage.js manages
(preferences are untouched by the verified operations and omitted).  `none`
models an absent key. -/
structure Storage where
  favorites : List FavRecord
  cache : Option CacheEntry
deriving DecidableEq, Repr

def emptyStorage : Storage := ⟨[], none⟩

/-- storage.js `CACHE_DURATION` (1 hour in milliseconds). -/
def CACHE_DURATION : Int := 3600000

/-- storage.js `getFavorites` (an absent key reads as `[]`). -/
def getFavorites (st : Storage) : List FavRecord := st.favorites

/-- storage.js `saveFavorite`: push `{id, savedAt: now}` unless the id is
already present; the Bool reports whether the id was newly added. -/
def saveFavorite (articleId : String) (now : Int) (st : Storage) : Bool × Storage :=
  let favorites := getFavorites st
  match favorites.find? (fun f => f.id == articleId) with
  | none => (true, { st with favorites := favorites ++ [⟨articleId, isoOfTime now⟩] })
  | some _ => (false, st)

/-- storage.js `removeFavorite`: filter the id out unconditionally. -/
def removeFavorite (articleId : String) (st : Storage) : Bool × Storage :=
  (true, { st with favorites := (getFavorites st).filter (fun f => f.id != articleId) })

/-- storage.js `isFavorite`. -/
def isFavoriteId (articleId : String) (st : Storage) : Bool :=
  (getFavorites st).any (fun f => f.id == articleId)

/-- storage.js `cacheArticles`: store `{timestamp: now, articles,
expiresAt: now + CACHE_DURATION}` (quota failure is not modeled). -/
def cacheArticles (now : Int) (articles : List Article) (st : Storage) : Storage :=
  { st with cache := some ⟨now, articles, now + CACHE_DURATION⟩ }

/-- storage.js `getCachedArticles`: return the stored collection while
`now < expiresAt`, otherwise evict the entry and report no cache.  Returns
the read result together with the (possibly updated) storage state. -/
def getCachedArticles (now : Int) (st : Storage) : Option (List Article) × Storage :=
  match st.cache with
  | none => (none, st)
  | some cacheData =>
    if now < cacheData.expiresAt then (some cacheData.articles, st)
    else (none, { st with cache := none })

/-- storage.js `clearCache`. -/
def clearCache (st : Storage) : Storage := { st with cache := none }

/-! ## Mock fallback data (rss-proxy.js `getMockArticles`) -/

/-- rss-proxy.js `getMockArticles`; `now` models `Date.now()`. -/
def getMockArticles (now : Int) : List Article :=
  [{ id := "mock-1"
     title := "AI-Powered Parametric Design: The Future of Architecture"
     description := "Explore how artificial intelligence is revolutionizing parametric design workflows, enabling architects to generate complex, optimized structures in seconds."
     link := "https://www.archdaily.com"
     pubDate := isoOfTime (now - 86400000)
     source := "ArchDaily"
     category := "architecture-ai"
     isFavorite := false },
   { id := "mock-2"
     title := "Midjourney 7 Released: Game-Changing Features for Architects"
     description := "The latest version of Midjourney introduces architectural accuracy improvements and better control over spatial relationships, making it an essential tool for concept visualization."
     link := "https://www.dezeen.com"
     pubDate := isoOfTime (now - 172800000)
     source := "Dezeen"
     category := "ai-design-tools"
     isFavorite := false },
   { id := "mock-3"
     title := "Real-Time Rendering with AI: Enscape vs Lumion AI"
     description := "A comprehensive comparison of AI-enhanced real-time rendering tools that are transforming architectural visualization workflows."
     link := "https://architizer.com"
     pubDate := isoOfTime (now - 259200000)
     source := "Architizer"
     category := "visualization"
     isFavorite := false },
   { id := "mock-4"
     title := "Automating BIM Workflows: AI Agents for Revit"
     description := "Learn how custom AI agents are streamlining repetitive tasks in Revit, saving architectural firms thousands of hours annually."
     link := "https://blog.testfit.io"
     pubDate := isoOfTime (now - 345600000)
     source := "TestFit"
     category := "automation"
     isFavorite := false },
   { id := "mock-5"
     title := "Interior Design AI: Transform Spaces with Machine Learning"
     description := "AI-powered interior design tools are enabling designers to generate photorealistic room layouts and furniture arrangements in minutes."
     link := "https://www.dezeen.com"
     pubDate := isoOfTime (now - 432000000)
     source := "Dezeen"
     category := "interior-design-ai"
     isFavorite := false },
   { id := "mock-6"
     title := "Stable Diffusion for Architecture: Complete Guide"
     description := "Master Stable Diffusion for architectural visualization with this comprehensive guide covering prompts, models, and best practices."
     link := "https://www.archdaily.com"
     pubDate := isoOfTime (now - 518400000)
     source := "ArchDaily"
     category := "ai-design-tools"
     isFavorite := false },
   { id := "mock-7"
     title := "AI in Construction: From Design to Built Reality"
     description := "How artificial intelligence is bridging the gap between architectural design and construction, improving accuracy and reducing costs."
     link := "https://architizer.com"
     pubDate := isoOfTime (now - 604800000)
     source := "Architizer"
     category := "industry-news"
     isFavorite := false },
   { id := "mock-8"
     title := "Generative AI Reshaping Architectural Visualization"
     description := "Generative AI is not replacing architects—it\x27s empowering them to explore more design iterations and create stunning visualizations faster than ever."
     link := "https://www.techtimes.com"
     pubDate := isoOfTime (now - 691200000)
     source := "Tech Times"
     category := "visualization"
     isFavorite := false }]

/-! ## Deduplication (the inline filter of rss-proxy.js `loadFeeds`) -/

/-- Pair each element with its array index, mirroring the `(article, index,
self)` callback arguments of `Array.prototype.filter`. -/
def withIdx : Nat → List Article → List (Nat × Article)
  | _, [] => []
  | i, a :: t => (i, a) :: withIdx (i + 1) t

/-- Model of JS `Array.prototype.findIndex` (−1 when there is no match). -/
def jsFindIndex (p : Article → Bool) : List Article → Int
  | [] => -1
  | a :: t =>
    if p a then 0
    else if jsFindIndex p t = -1 then -1 else jsFindIndex p t + 1

/-- The dedup stage of `loadFeeds`:
`.filter((article, index, self) => index === self.findIndex(a => a.link === article.link))`. -/
def dedupByLink (xs : List Article) : List Article :=
  ((withIdx 0 xs).filter
    (fun ia => jsFindIndex (fun a => a.link == ia.2.link) xs == (ia.1 : Int))).map Prod.snd

/-! ## Sorting (the comparator of rss-proxy.js `loadFeeds`) -/

/-- The comparator `(a, b) => new Date(b.pubDate) - new Date(a.pubDate)`,
post-composed with ECMAScript CompareArrayElements, which turns a NaN
comparator result into +0. -/
def cmpVal (a b : Article) : Int :=
  match parseDate a.pubDate, parseDate b.pubDate with
  | some da, some db => db - da
  | _, _ => 0

/-- Stable insertion of one article into an already-processed list: `a` goes
in front of the first element it need not follow strictly. -/
def insertArt (a : Article) : List Article → List Article
  | [] => [a]
  | b :: t => if cmpVal a b ≤ 0 then a :: b :: t else b :: insertArt a t

/-- Model of `Array.prototype.sort` with the date comparator: a stable sort
(see the modeling notes at the top of the file). -/
def jsSortArticles (l : List Article) : List Article := l.foldr insertArt []

/-! ## The pipeline orchestrator (rss-proxy.js `loadFeeds`) -/

/-- The fetch-and-process path of `loadFeeds` (after the cache check).
`fetched` holds each source's settled outcome: `none` for a failed source
(rejected, or both proxies failed) and `some items` for a fulfilled one. -/
def loadFeedsBody (now : Int) (st : Storage) (fetched : List (Option (List RawItem))) :
    List Article × Storage :=
  let articles := fetched.foldl
    (fun acc result => match result with
      | some items => acc ++ items
      | none => acc) []
  if articles.length = 0 then (getMockArticles now, st)
  else
    let processed :=
      jsSortArticles
        (((dedupByLink (articles.map (normalizeArticle now))).map categorizeArticle).reduceOption)
    (processed, cacheArticles now processed st)

/-- rss-proxy.js `loadFeeds`: serve a non-empty valid cache entry, otherwise
run the fetch-and-process pipeline. -/
def loadFeeds (now : Int) (st : Storage) (fetched : List (Option (List RawItem))) :
    List Article × Storage :=
  match getCachedArticles now st with
  | (some cachedArticles, st1) =>
    if 0 < cachedArticles.length then (cachedArticles, st1)
    else loadFeedsBody now st1 fetched
  | (none, st1) => loadFeedsBody now st1 fetched

/-! ## Substring lemmas -/

theorem hasSubstr_nil_needle (l : List Char) : hasSubstr l [] = true := by
  cases l <;> simp [hasSubstr, List.isPrefixOf]

theorem hasSubstr_cons (c : Char) (l n : List Char) :
    hasSubstr (c :: l) n = (n.isPrefixOf (c :: l) || hasSubstr l n) := rfl

theorem hasSubstr_of_prefix {n l : List Char} (h : n.isPrefixOf l = true) :
    hasSubstr l n = true := by
  cases l with
  | nil =>
    have : n = [] := by
      rw [List.isPrefixOf_iff_prefix] at h
      simpa using h
    subst this
    simp [hasSubstr, List.isPrefixOf]
  | cons c t => simp [hasSubstr_cons, h]

theorem hasSubstr_append_left {h n : List Char} (t : List Char)
    (hh : hasSubstr h n = true) : hasSubstr (h ++ t) n = true := by
  induction h with
  | nil =>
    have : n = [] := by
      have := hh
      rw [show hasSubstr [] n = n.isPrefixOf [] from rfl, List.isPrefixOf_iff_prefix] at this
      simpa using this
    subst this
    exact hasSubstr_nil_needle t
  | cons c h' ih =>
    rw [hasSubstr_cons] at hh
    rcases Bool.or_eq_true_iff.mp hh with h1 | h2
    · have hp : n <+: c :: h' := List.isPrefixOf_iff_prefix.mp h1
      have hp2 : n <+: (c :: h') ++ t := hp.trans (List.prefix_append _ _)
      rw [show (c :: h') ++ t = c :: (h' ++ t) from rfl] at hp2
      rw [show (c :: h') ++ t = c :: (h' ++ t) from rfl, hasSubstr_cons,
        List.isPrefixOf_iff_prefix.mpr hp2]
      simp
    · rw [show (c :: h') ++ t = c :: (h' ++ t) from rfl, hasSubstr_cons, ih h2]
      simp

theorem hasSubstr_append_right {t n : List Char} (h : List Char)
    (ht : hasSubstr t n = true) : hasSubstr (h ++ t) n = true := by
  induction h with
  | nil => exact ht
  | cons c h' ih =>
    rw [show (c :: h') ++ t = c :: (h' ++ t) from rfl, hasSubstr_cons, ih]
    simp

theorem contentOf_data (a : Article) :
    (contentOf a).data =
      (jsToLower a.title).data ++ [' '] ++ (jsToLower a.description).data := by
  show ((a.title ++ " " ++ a.description).data.map Char.toLower) = _
  rw [String.data_append, String.data_append]
  simp [jsToLower]

theorem jsIncludes_content_of_title {a : Article} {sub : String}
    (h : jsIncludes (jsToLower a.title) sub = true) :
    jsIncludes (contentOf a) sub = true := by
  show hasSubstr (contentOf a).data sub.data = true
  rw [contentOf_data]
  exact hasSubstr_append_left _ (hasSubstr_append_left _ h)

theorem jsIncludes_content_of_description {a : Article} {sub : String}
    (h : jsIncludes (jsToLower a.description) sub = true) :
    jsIncludes (contentOf a) sub = true := by
  show hasSubstr (contentOf a).data sub.data = true
  rw [contentOf_data]
  exact hasSubstr_append_right _ h

/-! ## Claim C1: relevance gate -/

theorem jsToLower_midjourney : jsToLower "midjourney" = "midjourney" := by decide

/-- C1.  An article whose title or description contains "Midjourney" (in any
letter case, i.e. whose lowercased title or description contains
"midjourney") is not dropped by `categorizeArticle` and is assigned the
category `ai-design-tools`; and an article whose combined lowercased
title+description contains no keyword of the fixed `AI_KEYWORDS` list is
dropped (`categorizeArticle` returns `none`). -/
theorem c1_relevance_gate (a : Article) :
    (jsIncludes (jsToLower a.title) "midjourney" = true ∨
        jsIncludes (jsToLower a.description) "midjourney" = true →
      categorizeArticle a = some { a with category := "ai-design-tools" }) ∧
    ((AI_KEYWORDS.any fun keyword => jsIncludes (contentOf a) (jsToLower keyword)) = false →
      categorizeArticle a = none) := by
  constructor
  · intro h
    have hinc : jsIncludes (contentOf a) "midjourney" = true := by
      rcases h with h | h
      · exact jsIncludes_content_of_title h
      · exact jsIncludes_content_of_description h
    have hrel : isAIRelated a = true := by
      rw [isAIRelated, List.any_eq_true]
      exact ⟨"midjourney", by simp [AI_KEYWORDS], by rw [jsToLower_midjourney]; exact hinc⟩
    simp only [categorizeArticle, hrel, Bool.not_true, Bool.false_eq_true, if_false]
    have hfind : findCategory (contentOf a) CATEGORIES = some "ai-design-tools" := by
      simp [CATEGORIES, findCategory, catAll, catAiDesignTools, List.any_cons,
        jsToLower_midjourney, hinc]
    rw [hfind]
  · intro h
    have hrel : isAIRelated a = false := h
    simp [categorizeArticle, hrel]

/-- Witness for C1 at concrete inputs: a mixed-case "MidJourney" title is
kept and categorized `ai-design-tools`; an article with no AI keyword is
dropped. -/
theorem c1_relevance_gate_witness :
    categorizeArticle
        { id := "w1", title := "MidJourney tips", description := "for architecture",
          link := "https://www.example.com/a", pubDate := "100", source := "Example",
          category := "industry-news", isFavorite := false } =
      some
        { id := "w1", title := "MidJourney tips", description := "for architecture",
          link := "https://www.example.com/a", pubDate := "100", source := "Example",
          category := "ai-design-tools", isFavorite := false } ∧
    categorizeArticle
        { id := "w2", title := "Concrete bridges", description := "Stone and wood",
          link := "https://www.example.com/b", pubDate := "100", source := "Example",
          category := "industry-news", isFavorite := false } = none :=
  ⟨(c1_relevance_gate _).1 (Or.inl (by decide)), (c1_relevance_gate _).2 (by decide)⟩

/-! ## Claim C10: frame condition of the classifier -/

theorem findCategory_mem {content : String} {cats : List Category} {cid : String}
    (h : findCategory content cats = some cid) :
    ∃ c ∈ cats, c.id = cid ∧ ¬(c.id = "all" || c.id = "favorites") = true := by
  induction cats with
  | nil => simp [findCategory] at h
  | cons c rest ih =>
    rw [findCategory] at h
    split at h
    · obtain ⟨c', hc', hid, hsk⟩ := ih h
      exact ⟨c', by simp [hc'], hid, hsk⟩
    · rename_i hskip
      split at h
      · injection h with h1
        exact ⟨c, by simp, h1, hskip⟩
      · obtain ⟨c', hc', hid, hsk⟩ := ih h
        exact ⟨c', by simp [hc'], hid, hsk⟩

theorem findCategory_CATEGORIES_mem {content : String} {cid : String}
    (h : findCategory content CATEGORIES = some cid) :
    cid ∈ ["ai-design-tools", "visualization", "automation",
      "architecture-ai", "interior-design-ai", "industry-news"] := by
  obtain ⟨c, hc, hid, hskip⟩ := findCategory_mem h
  rw [← hid]
  simp [CATEGORIES] at hc
  rcases hc with rfl | rfl | rfl | rfl | rfl | rfl | rfl | rfl
  · exact absurd (by decide) hskip
  · decide
  · decide
  · decide
  · decide
  · decide
  · decide
  · exact absurd (by decide) hskip

/-- C10.  Whenever `categorizeArticle` returns an article, that article
agrees with its input on every field except `category`, and the assigned
category is one of the six real category identifiers — never `all` and
never `favorites`.  (The input itself is not mutated: the model is pure,
and the code builds a fresh object with an object-spread.) -/
theorem c10_frame (a b : Article) (h : categorizeArticle a = some b) :
    b.id = a.id ∧ b.title = a.title ∧ b.description = a.description ∧
    b.link = a.link ∧ b.pubDate = a.pubDate ∧ b.source = a.source ∧
    b.isFavorite = a.isFavorite ∧
    b.category ∈ ["ai-design-tools", "visualization", "automation",
      "architecture-ai", "interior-design-ai", "industry-news"] ∧
    b.category ≠ "all" ∧ b.category ≠ "favorites" := by
  have hsix : ∀ x, x ∈ (["ai-design-tools", "visualization", "automation",
      "architecture-ai", "interior-design-ai", "industry-news"] : List String) →
      x ≠ "all" ∧ x ≠ "favorites" := by decide
  rw [categorizeArticle] at h
  split at h
  · exact absurd h (by simp)
  · dsimp only at h
    revert h
    split
    · rename_i cid hfind
      intro h
      injection h with h1
      subst h1
      have hmem := findCategory_CATEGORIES_mem hfind
      exact ⟨rfl, rfl, rfl, rfl, rfl, rfl, rfl, hmem,
        (hsix cid hmem).1, (hsix cid hmem).2⟩
    · intro h
      injection h with h1
      subst h1
      exact ⟨rfl, rfl, rfl, rfl, rfl, rfl, rfl,
        show ("industry-news" : String) ∈ _ from by decide,
        show ("industry-news" : String) ≠ "all" from by decide,
        show ("industry-news" : String) ≠ "favorites" from by decide⟩

/-- A concrete relevant article for the C10 witness. -/
def c10inputArticle : Article :=
  { id := "w3", title := "Neural rendering", description := "for interiors",
    link := "https://www.example.com/c", pubDate := "100", source := "Example",
    category := "industry-news", isFavorite := false }

/-- Witness for C10: the classifier keeps every field of the concrete input
except `category`, which it sets to the real category `visualization`. -/
theorem c10_frame_witness :
    ({ c10inputArticle with category := "visualization" } : Article).id = c10inputArticle.id ∧
    ({ c10inputArticle with category := "visualization" } : Article).title = c10inputArticle.title ∧
    ({ c10inputArticle with category := "visualization" } : Article).description =
      c10inputArticle.description ∧
    ({ c10inputArticle with category := "visualization" } : Article).link = c10inputArticle.link ∧
    ({ c10inputArticle with category := "visualization" } : Article).pubDate =
      c10inputArticle.pubDate ∧
    ({ c10inputArticle with category := "visualization" } : Article).source =
      c10inputArticle.source ∧
    ({ c10inputArticle with category := "visualization" } : Article).isFavorite =
      c10inputArticle.isFavorite ∧
    ({ c10inputArticle with category := "visualization" } : Article).category ∈
      ["ai-design-tools", "visualization", "automation",
        "architecture-ai", "interior-design-ai", "industry-news"] ∧
    ({ c10inputArticle with category := "visualization" } : Article).category ≠ "all" ∧
    ({ c10inputArticle with category := "visualization" } : Article).category ≠ "favorites" :=
  c10_frame c10inputArticle { c10inputArticle with category := "visualization" } (by decide)

/-! ## Claim C3: article id determinism (corrected) -/

/-- C3 (amended).  For every two raw items carrying the same non-empty
`link` string, `normalizeArticle` computes the same `id`; in general the id
is a deterministic function of the link string falling back to the guid,
falling back to the empty string, via the 32-bit rolling hash — and hence
independent of every other field of the raw item.  (When the link is empty
the guid fallback kicks in, so two items with the same — empty — link but
different guids can get different ids; see the counterexample.) -/
theorem c3_id_of_link :
    (∀ (r1 r2 : RawItem) (now1 now2 : Int), r1.link = r2.link → r1.link ≠ "" →
      (normalizeArticle now1 r1).id = (normalizeArticle now2 r2).id) ∧
    (∀ (r : RawItem) (now : Int),
      (normalizeArticle now r).id = generateArticleId (jsOr r.link (jsOr r.guid ""))) := by
  constructor
  · intro r1 r2 now1 now2 hl hne
    show generateArticleId (jsOr r1.link (jsOr r1.guid "")) =
      generateArticleId (jsOr r2.link (jsOr r2.guid ""))
    rw [jsOr, if_neg hne, jsOr, if_neg (hl ▸ hne), hl]
  · intro r now
    rfl

/-- Witness for C3: two raw items sharing a non-empty link but differing in
every other field get the same id. -/
theorem c3_id_of_link_witness :
    (normalizeArticle 0
        ⟨"T1", "D1", "C1", "https://www.example.com/p", "100", "g1"⟩).id =
    (normalizeArticle 7
        ⟨"T2", "D2", "C2", "https://www.example.com/p", "200", "g2"⟩).id :=
  c3_id_of_link.1 _ _ 0 7 rfl (by decide)

/-- Counterexample for C3 as stated: two raw items with the same (empty)
`link` string but different guids are normalized to different ids, because
the id hashes the guid when the link is falsy. -/
theorem c3_counterexample :
    (⟨"T", "D", "", "", "P", "a"⟩ : RawItem).link =
      (⟨"T", "D", "", "", "P", "b"⟩ : RawItem).link ∧
    (normalizeArticle 0 (⟨"T", "D", "", "", "P", "a"⟩ : RawItem)).id ≠
      (normalizeArticle 0 (⟨"T", "D", "", "", "P", "b"⟩ : RawItem)).id := by
  constructor
  · rfl
  · decide

/-! ## Claim C5: cache round-trip and expiry -/

/-- C5.  After `cacheArticles` at time `t0`, the stored entry has
`expiresAt = t0 + 3600000`; `getCachedArticles` before that instant returns
the stored collection unchanged (and leaves the entry in place);
`getCachedArticles` at or after that instant returns no cache, evicts the
entry, and a subsequent read also finds no entry. -/
theorem c5_cache_roundtrip (A : List Article) (st : Storage) (t0 t1 : Int) :
    (cacheArticles t0 A st).cache = some ⟨t0, A, t0 + 3600000⟩ ∧
    (t1 < t0 + 3600000 →
      getCachedArticles t1 (cacheArticles t0 A st) = (some A, cacheArticles t0 A st)) ∧
    (t0 + 3600000 ≤ t1 →
      (getCachedArticles t1 (cacheArticles t0 A st)).1 = none ∧
      ((getCachedArticles t1 (cacheArticles t0 A st)).2).cache = none ∧
      (getCachedArticles t1 ((getCachedArticles t1 (cacheArticles t0 A st)).2)).1 = none) := by
  refine ⟨rfl, ?_, ?_⟩
  · intro h
    simp [cacheArticles, getCachedArticles, CACHE_DURATION, h]
  · intro h
    have hnot : ¬ t1 < t0 + 3600000 := by omega
    refine ⟨?_, ?_, ?_⟩ <;>
      simp [cacheArticles, getCachedArticles, CACHE_DURATION, hnot]

/-- Witness for C5 at concrete times: a hit 10 ms after the write, a miss
(with eviction) exactly one hour after the write. -/
theorem c5_cache_roundtrip_witness :
    getCachedArticles 10 (cacheArticles 0 [] emptyStorage) =
      (some [], cacheArticles 0 [] emptyStorage) ∧
    (getCachedArticles 3600000 (cacheArticles 0 [] emptyStorage)).1 = none :=
  ⟨(c5_cache_roundtrip [] emptyStorage 0 10).2.1 (by decide),
   ((c5_cache_roundtrip [] emptyStorage 0 3600000).2.2 (by decide)).1⟩

/-! ## Claim C9: description cleaning -/

/-- C9.  `cleanDescription` strips HTML markup, decodes HTML entities (in
that order: entity-encoded angle brackets survive as literal text, witness
the closed conjunct), then truncates the decoded text to 200 characters
plus a `...` marker when it exceeds 200 characters — so every result is at
most 203 characters — returns the decoded text unchanged otherwise, and
falls back to the fixed placeholder when the cleaned result is empty. -/
theorem c9_clean_description (html : String) :
    (200 < (decodeEntities (stripTags html.data)).length →
      cleanDescription html = ⟨(decodeEntities (stripTags html.data)).take 200⟩ ++ "...") ∧
    ((decodeEntities (stripTags html.data)).length ≤ 200 →
      decodeEntities (stripTags html.data) ≠ [] →
      cleanDescription html = ⟨decodeEntities (stripTags html.data)⟩) ∧
    (decodeEntities (stripTags html.data) = [] →
      cleanDescription html = "No description available.") ∧
    (cleanDescription html).length ≤ 203 ∧
    cleanDescription "&lt;b&gt;" = "<b>" := by
  refine ⟨?_, ?_, ?_, ?_, by decide⟩
  · intro h
    rw [cleanDescription]
    simp only [if_pos h]
  · intro h1 h2
    rw [cleanDescription]
    simp only [if_neg (by omega : ¬ 200 < (decodeEntities (stripTags html.data)).length)]
    rw [if_neg]
    simpa [List.isEmpty_iff] using h2
  · intro h
    rw [cleanDescription]
    simp [h]
  · rw [cleanDescription]
    split
    · rename_i h
      have h200 : ((decodeEntities (stripTags html.data)).take 200).length = 200 := by
        simp
        omega
      show ((⟨(decodeEntities (stripTags html.data)).take 200⟩ : String) ++ "...").length ≤ 203
      rw [String.length_append,
        show ((⟨(decodeEntities (stripTags html.data)).take 200⟩ : String)).length
          = ((decodeEntities (stripTags html.data)).take 200).length from rfl,
        h200]
      decide
    · split
      · decide
      · rename_i h _
        show (decodeEntities (stripTags html.data)).length ≤ 203
        omega

/-- Witness for C9 at concrete inputs: a short tagged description is
stripped and kept; an empty one falls back to the placeholder. -/
theorem c9_clean_description_witness :
    cleanDescription "<b>hello</b> &amp; more" = "hello & more" ∧
    cleanDescription "<p></p>" = "No description available." := by
  constructor
  · have := (c9_clean_description "<b>hello</b> &amp; more").2.1 (by decide) (by decide)
    rw [this]
    decide
  · exact (c9_clean_description "<p></p>").2.2.1 (by decide)

/-! ## Claim C6: favorites add/remove (corrected) -/

/-- Number of favorite records carrying a given id. -/
def countFav (articleId : String) (st : Storage) : Nat :=
  (getFavorites st).countP (fun f => f.id == articleId)

theorem countP_singleton_fav (X Y : String) (t : Int) :
    List.countP (fun f => f.id == Y) [(⟨X, isoOfTime t⟩ : FavRecord)] =
      if X = Y then 1 else 0 := by
  by_cases hxy : X = Y <;> simp [List.countP_cons, hxy]

theorem countFav_saveFavorite_self (X : String) (t : Int) (st : Storage) :
    countFav X (saveFavorite X t st).2 = if countFav X st = 0 then 1 else countFav X st := by
  rw [saveFavorite]
  cases hf : (getFavorites st).find? (fun f => f.id == X) with
  | none =>
    have hzero : countFav X st = 0 := by
      rw [countFav, List.countP_eq_zero]
      exact List.find?_eq_none.mp hf
    rw [if_pos hzero]
    show (getFavorites st ++ [(⟨X, isoOfTime t⟩ : FavRecord)]).countP (fun f => f.id == X) = 1
    rw [List.countP_append, countP_singleton_fav, if_pos rfl]
    have : (getFavorites st).countP (fun f => f.id == X) = 0 := hzero
    omega
  | some f =>
    have hpos : countFav X st ≠ 0 := by
      intro h0
      have hmem := List.mem_of_find?_eq_some hf
      have hp := List.find?_some hf
      exact (List.countP_eq_zero.mp h0 f hmem) hp
    rw [if_neg hpos]

theorem saveFavorite_already (X : String) (t : Int) (st : Storage)
    (h : countFav X st ≠ 0) : saveFavorite X t st = (false, st) := by
  rw [saveFavorite]
  cases hf : (getFavorites st).find? (fun f => f.id == X) with
  | none =>
    exact absurd (by rw [countFav, List.countP_eq_zero]; exact List.find?_eq_none.mp hf) h
  | some f => rfl

theorem countFav_removeFavorite_self (X : String) (st : Storage) :
    countFav X (removeFavorite X st).2 = 0 := by
  rw [removeFavorite, countFav, List.countP_eq_zero]
  intro f hmem
  have := (List.mem_filter.mp hmem).2
  simpa using this

theorem countFav_saveFavorite_other (X Y : String) (t : Int) (st : Storage)
    (h : countFav Y st ≤ 1) : countFav Y (saveFavorite X t st).2 ≤ 1 := by
  rw [saveFavorite]
  cases hf : (getFavorites st).find? (fun f => f.id == X) with
  | none =>
    have hzero : countFav X st = 0 := by
      rw [countFav, List.countP_eq_zero]
      exact List.find?_eq_none.mp hf
    show (getFavorites st ++ [(⟨X, isoOfTime t⟩ : FavRecord)]).countP (fun f => f.id == Y) ≤ 1
    rw [List.countP_append, countP_singleton_fav]
    by_cases hxy : X = Y
    · subst hxy
      have : (getFavorites st).countP (fun f => f.id == X) = 0 := hzero
      rw [if_pos rfl]
      omega
    · rw [if_neg hxy]
      have : (getFavorites st).countP (fun f => f.id == Y) ≤ 1 := h
      omega
  | some f => exact h

theorem countFav_removeFavorite_other (X Y : String) (st : Storage)
    (h : countFav Y st ≤ 1) : countFav Y (removeFavorite X st).2 ≤ 1 := by
  rw [removeFavorite]
  calc (getFavorites { st with favorites := (getFavorites st).filter (fun f => f.id != X) }).countP
        (fun f => f.id == Y)
      ≤ (getFavorites st).countP (fun f => f.id == Y) :=
        List.Sublist.countP_le _ (List.filter_sublist _)
    _ ≤ 1 := h

/-- C6 (amended).  Provided the store holds at most one record per id — as
every store reachable through the API from an empty store does — `add(X)`
twice leaves exactly one record with id `X` and the second add reports
`false`; `remove(X)` then (indeed, from any state) leaves no record with id
`X`; and neither operation can introduce a duplicate id.  (A store seeded
with duplicate records for the same id keeps them: the adds are no-ops
there and the "exactly one" part fails, see the counterexample.) -/
theorem c6_favorites (X Y : String) (t1 t2 : Int) (st : Storage) :
    (countFav X st ≤ 1 →
      countFav X (saveFavorite X t2 (saveFavorite X t1 st).2).2 = 1 ∧
      (saveFavorite X t2 (saveFavorite X t1 st).2).1 = false) ∧
    countFav X (removeFavorite X st).2 = 0 ∧
    countFav X (removeFavorite X (saveFavorite X t2 (saveFavorite X t1 st).2).2).2 = 0 ∧
    (countFav Y st ≤ 1 → countFav Y (saveFavorite X t1 st).2 ≤ 1 ∧
      countFav Y (removeFavorite X st).2 ≤ 1) := by
  refine ⟨?_, countFav_removeFavorite_self X st, countFav_removeFavorite_self X _, ?_⟩
  · intro h
    have hX1 : countFav X (saveFavorite X t1 st).2 = 1 := by
      rw [countFav_saveFavorite_self]
      by_cases h0 : countFav X st = 0
      · rw [if_pos h0]
      · rw [if_neg h0]
        omega
    have hsecond := saveFavorite_already X t2 (saveFavorite X t1 st).2 (by omega)
    rw [hsecond]
    exact ⟨hX1, rfl⟩
  · intro h
    exact ⟨countFav_saveFavorite_other X Y t1 st h, countFav_removeFavorite_other X Y st h⟩

/-- Witness for C6 from the empty store at concrete inputs. -/
theorem c6_favorites_witness :
    countFav "art-1" (saveFavorite "art-1" 2 (saveFavorite "art-1" 1 emptyStorage).2).2 = 1 ∧
    (saveFavorite "art-1" 2 (saveFavorite "art-1" 1 emptyStorage).2).1 = false ∧
    countFav "art-1"
      (removeFavorite "art-1" (saveFavorite "art-1" 2 (saveFavorite "art-1" 1 emptyStorage).2).2).2 = 0 :=
  ⟨((c6_favorites "art-1" "x" 1 2 emptyStorage).1 (by decide)).1,
   ((c6_favorites "art-1" "x" 1 2 emptyStorage).1 (by decide)).2,
   (c6_favorites "art-1" "x" 1 2 emptyStorage).2.2.1⟩

/-- Counterexample for C6 as stated: starting from a (directly seeded)
store already holding two records with id "a", `add("a")` twice is a no-op
and leaves two records with that id, not exactly one. -/
theorem c6_counterexample :
    countFav "a" (saveFavorite "a" 5 (saveFavorite "a" 3 ⟨[⟨"a", "t1"⟩, ⟨"a", "t2"⟩], none⟩).2).2 = 2 ∧
    ¬ countFav "a" (saveFavorite "a" 5 (saveFavorite "a" 3 ⟨[⟨"a", "t1"⟩, ⟨"a", "t2"⟩], none⟩).2).2 = 1 := by
  refine ⟨by decide, by decide⟩

/-! ## Claim C2: first-matching-category order -/

/-- The category table without the two pseudo-categories, in table order —
the iteration domain of the classifier loop. -/
def realCategories : List Category :=
  CATEGORIES.filter (fun c => !(c.id = "all" || c.id = "favorites"))

/-- Following the spec's words (refinement reference): the FIRST category,
in the table's defined order excluding `all` and `favorites`, whose keyword
list has a case-insensitive substring match in the content. -/
def specFirstCategory (content : String) : Option String :=
  (realCategories.find?
    (fun c => c.keywords.any (fun keyword => jsIncludes content (jsToLower keyword)))).map
    Category.id

theorem findCategory_eq_find? (content : String) (cats : List Category) :
    findCategory content cats =
      ((cats.filter (fun c => !(c.id = "all" || c.id = "favorites"))).find?
        (fun c => c.keywords.any (fun keyword => jsIncludes content (jsToLower keyword)))).map
        Category.id := by
  induction cats with
  | nil => rfl
  | cons c rest ih =>
    rw [findCategory]
    by_cases hskip : (c.id = "all" || c.id = "favorites") = true
    · rw [if_pos hskip, ih, List.filter_cons_of_neg (by simp [hskip])]
    · rw [if_neg hskip, List.filter_cons_of_pos (by simpa using hskip)]
      by_cases hm : (c.keywords.any fun keyword => jsIncludes content (jsToLower keyword)) = true
      · rw [if_pos hm, List.find?_cons_of_pos]
        · rfl
        · exact hm
      · rw [if_neg hm, ih, List.find?_cons_of_neg]
        exact hm

/-- C2.  For every relevant article, the classifier assigns the first
category — in the category table's defined order, excluding the
pseudo-categories `all` and `favorites` — whose keyword list matches the
combined lowercased text, `industry-news` when none matches; in particular
any relevant article matching an `ai-design-tools` keyword gets
`ai-design-tools` no matter which later categories also match. -/
theorem c2_first_match (a : Article) (h : isAIRelated a = true) :
    categorizeArticle a =
      some { a with category := (specFirstCategory (contentOf a)).getD "industry-news" } ∧
    ((catAiDesignTools.keywords.any fun keyword =>
        jsIncludes (contentOf a) (jsToLower keyword)) = true →
      categorizeArticle a = some { a with category := "ai-design-tools" }) ∧
    ((∀ c ∈ realCategories,
        (c.keywords.any fun keyword => jsIncludes (contentOf a) (jsToLower keyword)) = false) →
      categorizeArticle a = some { a with category := "industry-news" }) := by
  have hbridge : findCategory (contentOf a) CATEGORIES = specFirstCategory (contentOf a) :=
    findCategory_eq_find? (contentOf a) CATEGORIES
  have hmain : categorizeArticle a =
      some { a with category := (specFirstCategory (contentOf a)).getD "industry-news" } := by
    rw [categorizeArticle, h]
    simp only [Bool.not_true, Bool.false_eq_true, if_false]
    rw [hbridge]
    cases hfind : specFirstCategory (contentOf a) with
    | none => rfl
    | some cid => rfl
  refine ⟨hmain, ?_, ?_⟩
  · intro hm
    have hreal : realCategories = [catAiDesignTools, catVisualization, catAutomation,
        catArchitectureAi, catInteriorDesignAi, catIndustryNews] := by decide
    have hfirst : specFirstCategory (contentOf a) = some "ai-design-tools" := by
      rw [specFirstCategory, hreal, List.find?_cons_of_pos]
      · rfl
      · exact hm
    rw [hmain, hfirst]
    rfl
  · intro hnone
    have hfirst : specFirstCategory (contentOf a) = none := by
      rw [specFirstCategory, List.find?_eq_none.mpr]
      · rfl
      · intro c hc
        rw [hnone c hc]
        simp
    rw [hmain, hfirst]
    rfl

/-- A concrete article matching both an `ai-design-tools` keyword
("midjourney") and an `architecture-ai` keyword ("architecture"). -/
def c2exampleArticle : Article :=
  { id := "w4", title := "Midjourney for architecture",
    description := "studio practice", link := "https://www.example.com/d",
    pubDate := "100", source := "Example", category := "industry-news",
    isFavorite := false }

/-- Witness for C2: the example article matching both an `ai-design-tools`
keyword and an `architecture-ai` keyword is assigned `ai-design-tools` —
table order wins. -/
theorem c2_first_match_witness :
    (catAiDesignTools.keywords.any fun keyword =>
      jsIncludes (contentOf c2exampleArticle) (jsToLower keyword)) = true ∧
    (catArchitectureAi.keywords.any fun keyword =>
      jsIncludes (contentOf c2exampleArticle) (jsToLower keyword)) = true ∧
    categorizeArticle c2exampleArticle =
      some { c2exampleArticle with category := "ai-design-tools" } :=
  ⟨by decide, by decide, (c2_first_match c2exampleArticle (by decide)).2.1 (by decide)⟩

/-! ## Claim C8: total-failure fallback to the sample set -/

theorem collect_nil (fetched : List (Option (List RawItem)))
    (hf : ∀ r ∈ fetched, r = none ∨ r = some []) (acc : List RawItem) :
    fetched.foldl
      (fun acc result => match result with
        | some items => acc ++ items
        | none => acc) acc = acc := by
  induction fetched generalizing acc with
  | nil => rfl
  | cons r t ih =>
    rcases hf r (by simp) with rfl | rfl
    · exact ih (fun x hx => hf x (by simp [hx])) acc
    · rw [List.foldl_cons]
      have : acc ++ [] = acc := List.append_nil acc
      rw [show (match some ([] : List RawItem) with
          | some items => acc ++ items
          | none => acc) = acc ++ [] from rfl, this]
      exact ih (fun x hx => hf x (by simp [hx])) acc

/-- C8.  When the cache is empty and every configured source yields zero raw
items (failed outright or delivered an empty item list), the pipeline
returns the fixed built-in sample article set — a non-empty collection, not
an error and not an empty result. -/
theorem c8_mock_fallback (now : Int) (st : Storage) (fetched : List (Option (List RawItem)))
    (hcache : st.cache = none) (hf : ∀ r ∈ fetched, r = none ∨ r = some []) :
    (loadFeeds now st fetched).1 = getMockArticles now ∧ (loadFeeds now st fetched).1 ≠ [] := by
  have hget : getCachedArticles now st = (none, st) := by
    rw [getCachedArticles, hcache]
  have hbody : loadFeeds now st fetched = loadFeedsBody now st fetched := by
    rw [loadFeeds, hget]
  have harticles : loadFeedsBody now st fetched = (getMockArticles now, st) := by
    rw [loadFeedsBody]
    rw [collect_nil fetched hf []]
    rfl
  rw [hbody, harticles]
  constructor
  · rfl
  · rw [getMockArticles]
    simp

/-- Witness for C8: four failed sources (the configured feed count), empty
cache. -/
theorem c8_mock_fallback_witness :
    (loadFeeds 0 emptyStorage [none, none, none, none]).1 = getMockArticles 0 ∧
    (loadFeeds 0 emptyStorage [none, none, none, none]).1 ≠ [] :=
  c8_mock_fallback 0 emptyStorage [none, none, none, none] rfl (by decide)

/-! ## Claim C7: sorting by date (corrected) -/

theorem insertArt_perm (a : Article) (l : List Article) :
    List.Perm (insertArt a l) (a :: l) := by
  induction l with
  | nil => exact List.Perm.refl _
  | cons b t ih =>
    rw [insertArt]
    by_cases hc : cmpVal a b ≤ 0
    · rw [if_pos hc]
    · rw [if_neg hc]
      exact (ih.cons b).trans (List.Perm.swap a b t)

theorem jsSortArticles_perm (l : List Article) : List.Perm (jsSortArticles l) l := by
  induction l with
  | nil => exact List.Perm.refl _
  | cons a t ih =>
    show List.Perm (insertArt a (jsSortArticles t)) (a :: t)
    exact (insertArt_perm a _).trans (ih.cons a)

theorem cmpVal_le_iff (a b : Article) (ha : (parseDate a.pubDate).isSome = true)
    (hb : (parseDate b.pubDate).isSome = true) :
    cmpVal a b ≤ 0 ↔ (parseDate b.pubDate).getD 0 ≤ (parseDate a.pubDate).getD 0 := by
  obtain ⟨da, hda⟩ := Option.isSome_iff_exists.mp ha
  obtain ⟨db, hdb⟩ := Option.isSome_iff_exists.mp hb
  rw [cmpVal, hda, hdb]
  show db - da ≤ 0 ↔ db ≤ da
  omega

theorem insertArt_pairwise (a : Article) (l : List Article)
    (ha : (parseDate a.pubDate).isSome = true)
    (hl : ∀ x ∈ l, (parseDate x.pubDate).isSome = true)
    (hp : l.Pairwise (fun x y => (parseDate y.pubDate).getD 0 ≤ (parseDate x.pubDate).getD 0)) :
    (insertArt a l).Pairwise
      (fun x y => (parseDate y.pubDate).getD 0 ≤ (parseDate x.pubDate).getD 0) := by
  induction l with
  | nil => simp [insertArt]
  | cons b t ih =>
    obtain ⟨hbt, hpt⟩ := List.pairwise_cons.mp hp
    have hbv : (parseDate b.pubDate).isSome = true := hl b (by simp)
    rw [insertArt]
    by_cases hc : cmpVal a b ≤ 0
    · rw [if_pos hc]
      have hab := (cmpVal_le_iff a b ha hbv).mp hc
      refine List.pairwise_cons.mpr ⟨?_, hp⟩
      intro x hx
      rcases List.mem_cons.mp hx with rfl | hx
      · exact hab
      · exact le_trans (hbt x hx) hab
    · rw [if_neg hc]
      have hba : (parseDate a.pubDate).getD 0 ≤ (parseDate b.pubDate).getD 0 := by
        have := (cmpVal_le_iff a b ha hbv).not.mp hc
        omega
      refine List.pairwise_cons.mpr ⟨?_, ih (fun x hx => hl x (by simp [hx])) hpt⟩
      intro x hx
      have hx' : x = a ∨ x ∈ t := by
        have := (insertArt_perm a t).mem_iff.mp hx
        simpa using this
      rcases hx' with rfl | hx'
      · exact hba
      · exact hbt x hx'

theorem jsSortArticles_pairwise (l : List Article)
    (hv : ∀ a ∈ l, (parseDate a.pubDate).isSome = true) :
    (jsSortArticles l).Pairwise
      (fun x y => (parseDate y.pubDate).getD 0 ≤ (parseDate x.pubDate).getD 0) := by
  induction l with
  | nil => simp [jsSortArticles]
  | cons a t ih =>
    show (insertArt a (jsSortArticles t)).Pairwise _
    refine insertArt_pairwise a _ (hv a (by simp)) ?_ (ih (fun x hx => hv x (by simp [hx])))
    intro x hx
    have : x ∈ t := (jsSortArticles_perm t).mem_iff.mp hx
    exact hv x (by simp [this])

theorem filter_insertArt (v : Int) (a : Article) (l : List Article) :
    (insertArt a l).filter (fun x => parseDate x.pubDate == some v) =
      if (parseDate a.pubDate == some v) = true
      then a :: l.filter (fun x => parseDate x.pubDate == some v)
      else l.filter (fun x => parseDate x.pubDate == some v) := by
  have fpos : ∀ (c : Article) (rest : List Article), (parseDate c.pubDate == some v) = true →
      List.filter (fun x => parseDate x.pubDate == some v) (c :: rest) =
        c :: List.filter (fun x => parseDate x.pubDate == some v) rest :=
    fun c rest hc => List.filter_cons_of_pos hc
  have fneg : ∀ (c : Article) (rest : List Article), ¬(parseDate c.pubDate == some v) = true →
      List.filter (fun x => parseDate x.pubDate == some v) (c :: rest) =
        List.filter (fun x => parseDate x.pubDate == some v) rest :=
    fun c rest hc => List.filter_cons_of_neg hc
  induction l with
  | nil =>
    rw [insertArt]
    by_cases hpa : (parseDate a.pubDate == some v) = true
    · rw [if_pos hpa, fpos a [] hpa]
    · rw [if_neg hpa, fneg a [] hpa]
  | cons b t ih =>
    rw [insertArt]
    by_cases hc : cmpVal a b ≤ 0
    · rw [if_pos hc]
      by_cases hpa : (parseDate a.pubDate == some v) = true
      · rw [fpos a (b :: t) hpa, if_pos hpa]
      · rw [fneg a (b :: t) hpa, if_neg hpa]
    · rw [if_neg hc]
      have hkey : ¬((parseDate a.pubDate == some v) = true ∧
          (parseDate b.pubDate == some v) = true) := by
        rintro ⟨hpa, hpb⟩
        have ha' : parseDate a.pubDate = some v := by simpa using hpa
        have hb' : parseDate b.pubDate = some v := by simpa using hpb
        apply hc
        rw [cmpVal, ha', hb']
        simp
      by_cases hpb : (parseDate b.pubDate == some v) = true
      · have hpa : ¬(parseDate a.pubDate == some v) = true := fun hx => hkey ⟨hx, hpb⟩
        rw [fpos b (insertArt a t) hpb, ih, if_neg hpa, if_neg hpa, fpos b t hpb]
      · rw [fneg b (insertArt a t) hpb, ih]
        by_cases hpa : (parseDate a.pubDate == some v) = true
        · rw [if_pos hpa, if_pos hpa, fneg b t hpb]
        · rw [if_neg hpa, if_neg hpa, fneg b t hpb]

theorem jsSortArticles_stable (l : List Article) (v : Int) :
    (jsSortArticles l).filter (fun x => parseDate x.pubDate == some v) =
      l.filter (fun x => parseDate x.pubDate == some v) := by
  induction l with
  | nil => rfl
  | cons a t ih =>
    show (insertArt a (jsSortArticles t)).filter _ = _
    rw [filter_insertArt]
    have fpos : (parseDate a.pubDate == some v) = true →
        List.filter (fun x => parseDate x.pubDate == some v) (a :: t) =
          a :: List.filter (fun x => parseDate x.pubDate == some v) t :=
      fun hc => List.filter_cons_of_pos hc
    have fneg : ¬(parseDate a.pubDate == some v) = true →
        List.filter (fun x => parseDate x.pubDate == some v) (a :: t) =
          List.filter (fun x => parseDate x.pubDate == some v) t :=
      fun hc => List.filter_cons_of_neg hc
    by_cases hpa : (parseDate a.pubDate == some v) = true
    · rw [if_pos hpa, ih, fpos hpa]
    · rw [if_neg hpa, ih, fneg hpa]

/-- An article dated T−1 day (T = 400000000 ms). -/
def articleT1 : Article :=
  { id := "t1", title := "one day ago", description := "", link := "https://www.example.com/1",
    pubDate := "313600000", source := "Example", category := "industry-news",
    isFavorite := false }

/-- An article dated T−2 days. -/
def articleT2 : Article :=
  { id := "t2", title := "two days ago", description := "", link := "https://www.example.com/2",
    pubDate := "227200000", source := "Example", category := "industry-news",
    isFavorite := false }

/-- An article dated T−3 days. -/
def articleT3 : Article :=
  { id := "t3", title := "three days ago", description := "", link := "https://www.example.com/3",
    pubDate := "140800000", source := "Example", category := "industry-news",
    isFavorite := false }

/-- C7 (amended).  The pipeline's sort is a stable sort by the JS comparator
`new Date(b.pubDate) - new Date(a.pubDate)`: the output is a permutation of
the input; when every `pubDate` parses, it is sorted by date descending
(newest first); articles with equal parsed dates keep their relative
pre-sort order; and three articles dated T−1day, T−3days, T−2days come out
as T−1day, T−2days, T−3days.  An unparseable `pubDate` makes the comparator
return NaN, which JS sorting treats as "equal to everything", so such
articles stay where stability puts them rather than sorting after all
validly dated ones (see the counterexample). -/
theorem c7_sort_order (l : List Article) (v : Int) :
    List.Perm (jsSortArticles l) l ∧
    ((∀ a ∈ l, (parseDate a.pubDate).isSome = true) →
      (jsSortArticles l).Pairwise
        (fun x y => (parseDate y.pubDate).getD 0 ≤ (parseDate x.pubDate).getD 0)) ∧
    (jsSortArticles l).filter (fun x => parseDate x.pubDate == some v) =
      l.filter (fun x => parseDate x.pubDate == some v) ∧
    jsSortArticles [articleT1, articleT3, articleT2] = [articleT1, articleT2, articleT3] := by
  refine ⟨jsSortArticles_perm l, jsSortArticles_pairwise l, jsSortArticles_stable l v, ?_⟩
  decide

/-- Witness for C7 at a concrete list with all dates parseable. -/
theorem c7_sort_order_witness :
    (jsSortArticles [articleT3, articleT1]).Pairwise
      (fun x y => (parseDate y.pubDate).getD 0 ≤ (parseDate x.pubDate).getD 0) :=
  (c7_sort_order [articleT3, articleT1] 0).2.1 (by decide)

/-- Counterexample for C7 as stated: an article with an unparseable date,
listed before a validly dated one, stays first after sorting — it does not
end up after all validly dated articles, because the comparator result NaN
is treated as a tie and the sort is stable. -/
theorem c7_counterexample :
    parseDate "not-a-date" = none ∧
    jsSortArticles
        [{ id := "bad", title := "bad date", description := "",
           link := "https://www.example.com/bad", pubDate := "not-a-date",
           source := "Example", category := "industry-news", isFavorite := false },
         articleT1] =
      [{ id := "bad", title := "bad date", description := "",
         link := "https://www.example.com/bad", pubDate := "not-a-date",
         source := "Example", category := "industry-news", isFavorite := false },
       articleT1] ∧
    jsSortArticles
        [{ id := "bad", title := "bad date", description := "",
           link := "https://www.example.com/bad", pubDate := "not-a-date",
           source := "Example", category := "industry-news", isFavorite := false },
         articleT1] ≠
      [articleT1,
       { id := "bad", title := "bad date", description := "",
         link := "https://www.example.com/bad", pubDate := "not-a-date",
         source := "Example", category := "industry-news", isFavorite := false }] := by
  refine ⟨by decide, by decide, by decide⟩

/-! ## Claim C4: deduplication by link (corrected) -/

theorem withIdx_le {k i : Nat} {a : Article} {xs : List Article}
    (h : (i, a) ∈ withIdx k xs) : k ≤ i := by
  induction xs generalizing k with
  | nil => simp [withIdx] at h
  | cons b t ih =>
    rw [withIdx] at h
    rcases List.mem_cons.mp h with heq | hmem
    · have : i = k := congrArg Prod.fst heq
      omega
    · have := ih hmem
      omega

theorem withIdx_mem_decomp {k i : Nat} {a : Article} {xs : List Article}
    (h : (i, a) ∈ withIdx k xs) :
    ∃ l1 l2, xs = l1 ++ a :: l2 ∧ i = k + l1.length := by
  induction xs generalizing k with
  | nil => simp [withIdx] at h
  | cons b t ih =>
    rw [withIdx] at h
    rcases List.mem_cons.mp h with heq | hmem
    · have h1 : i = k := congrArg Prod.fst heq
      have h2 : a = b := congrArg Prod.snd heq
      exact ⟨[], t, by rw [h2]; rfl, by simp [h1]⟩
    · obtain ⟨l1, l2, hxs, hi⟩ := ih hmem
      refine ⟨b :: l1, l2, by rw [hxs]; rfl, ?_⟩
      simp only [List.length_cons]
      omega

theorem withIdx_mem_of_decomp (k : Nat) (l1 l2 : List Article) (a : Article) :
    (k + l1.length, a) ∈ withIdx k (l1 ++ a :: l2) := by
  induction l1 generalizing k with
  | nil => simp [withIdx]
  | cons b t ih =>
    show (k + (b :: t).length, a) ∈ withIdx k (b :: (t ++ a :: l2))
    rw [withIdx]
    apply List.mem_cons.mpr
    right
    have := ih (k + 1)
    have harith : k + (b :: t).length = (k + 1) + t.length := by
      simp only [List.length_cons]
      omega
    rw [harith]
    exact this

theorem withIdx_functional {k i : Nat} {a b : Article} {xs : List Article}
    (ha : (i, a) ∈ withIdx k xs) (hb : (i, b) ∈ withIdx k xs) : a = b := by
  induction xs generalizing k with
  | nil => simp [withIdx] at ha
  | cons c t ih =>
    rw [withIdx] at ha hb
    rcases List.mem_cons.mp ha with h1 | h1 <;> rcases List.mem_cons.mp hb with h2 | h2
    · have e1 : a = c := congrArg Prod.snd h1
      have e2 : b = c := congrArg Prod.snd h2
      rw [e1, e2]
    · have e1 : i = k := congrArg Prod.fst h1
      have := withIdx_le h2
      omega
    · have e2 : i = k := congrArg Prod.fst h2
      have := withIdx_le h1
      omega
    · exact ih h1 h2

theorem withIdx_nodup (k : Nat) (xs : List Article) : (withIdx k xs).Nodup := by
  induction xs generalizing k with
  | nil => simp [withIdx]
  | cons b t ih =>
    rw [withIdx]
    refine List.nodup_cons.mpr ⟨?_, ih (k + 1)⟩
    intro hmem
    have := withIdx_le hmem
    omega

theorem jsFindIndex_ge (p : Article → Bool) (xs : List Article) :
    -1 ≤ jsFindIndex p xs := by
  induction xs with
  | nil => rw [jsFindIndex]
  | cons a t ih =>
    rw [jsFindIndex]
    by_cases hp : p a = true
    · rw [if_pos hp]
      omega
    · rw [if_neg hp]
      by_cases h1 : jsFindIndex p t = -1
      · rw [if_pos h1]
      · rw [if_neg h1]
        omega

theorem jsFindIndex_eq_neg_one (p : Article → Bool) (xs : List Article) :
    jsFindIndex p xs = -1 ↔ ∀ a ∈ xs, p a = false := by
  induction xs with
  | nil => simp [jsFindIndex]
  | cons a t ih =>
    rw [jsFindIndex]
    by_cases hp : p a = true
    · rw [if_pos hp]
      constructor
      · intro h
        exact absurd h (by decide)
      · intro h
        exact absurd (h a (by simp)) (by simp [hp])
    · have hp' : p a = false := by simpa using hp
      rw [if_neg hp]
      by_cases h1 : jsFindIndex p t = -1
      · rw [if_pos h1]
        constructor
        · intro _ x hx
          rcases List.mem_cons.mp hx with rfl | hx
          · exact hp'
          · exact (ih.mp h1) x hx
        · intro _
          rfl
      · rw [if_neg h1]
        constructor
        · intro h
          exfalso
          have := jsFindIndex_ge p t
          omega
        · intro h
          exact absurd (ih.mpr (fun x hx => h x (by simp [hx]))) h1

theorem jsFindIndex_append (p : Article → Bool) (l1 : List Article) (b : Article)
    (l2 : List Article) (h1 : ∀ c ∈ l1, p c = false) (hb : p b = true) :
    jsFindIndex p (l1 ++ b :: l2) = (l1.length : Int) := by
  induction l1 with
  | nil =>
    rw [List.nil_append, jsFindIndex, if_pos hb]
    rfl
  | cons c t ih =>
    have hc : p c = false := h1 c (by simp)
    rw [List.cons_append, jsFindIndex, if_neg (by simp [hc])]
    have ht : jsFindIndex p (t ++ b :: l2) = (t.length : Int) :=
      ih (fun x hx => h1 x (by simp [hx]))
    rw [ht, if_neg (by omega)]
    simp only [List.length_cons]
    push_cast
    omega

theorem jsFindIndex_eq_some {p : Article → Bool} {xs : List Article} {i : Nat}
    (h : jsFindIndex p xs = (i : Int)) :
    ∃ l1 b l2, xs = l1 ++ b :: l2 ∧ l1.length = i ∧ p b = true ∧ ∀ c ∈ l1, p c = false := by
  induction xs generalizing i with
  | nil =>
    rw [jsFindIndex] at h
    exfalso
    omega
  | cons a t ih =>
    rw [jsFindIndex] at h
    by_cases hp : p a = true
    · rw [if_pos hp] at h
      have hi : i = 0 := by omega
      subst hi
      exact ⟨[], a, t, rfl, rfl, hp, by simp⟩
    · rw [if_neg hp] at h
      have hp' : p a = false := by simpa using hp
      by_cases h1 : jsFindIndex p t = -1
      · rw [if_pos h1] at h
        exfalso
        omega
      · rw [if_neg h1] at h
        have hge := jsFindIndex_ge p t
        have hi1 : 1 ≤ i := by omega
        have ht : jsFindIndex p t = ((i - 1 : Nat) : Int) := by
          omega
        obtain ⟨l1, b, l2, hxs, hlen, hb, hall⟩ := ih ht
        refine ⟨a :: l1, b, l2, by rw [hxs]; rfl, ?_, hb, ?_⟩
        · simp only [List.length_cons]
          omega
        · intro c hc
          rcases List.mem_cons.mp hc with rfl | hc
          · exact hp'
          · exact hall c hc

theorem dedupByLink_mem_first {xs : List Article} {b : Article} (h : b ∈ dedupByLink xs) :
    ∃ l1 l2, xs = l1 ++ b :: l2 ∧ ∀ c ∈ l1, c.link ≠ b.link := by
  rw [dedupByLink] at h
  obtain ⟨ib, hmem, hsnd⟩ := List.mem_map.mp h
  obtain ⟨i, b'⟩ := ib
  have hb' : b' = b := hsnd
  subst hb'
  obtain ⟨hin, hcond⟩ := List.mem_filter.mp hmem
  have hcond' : jsFindIndex (fun x => x.link == b'.link) xs = (i : Int) := by
    simpa using hcond
  obtain ⟨l1, b2, l2, hxs, hlen, hpb2, hall⟩ := jsFindIndex_eq_some hcond'
  obtain ⟨l1', l2', hxs', hi⟩ := withIdx_mem_decomp hin
  have hlen' : l1.length = l1'.length := by omega
  have happ : l1 ++ b2 :: l2 = l1' ++ b' :: l2' := by rw [← hxs, ← hxs']
  obtain ⟨hl, ht⟩ := List.append_inj happ hlen'
  have hb2 : b2 = b' := (List.cons.injEq _ _ _ _ ▸ ht).1
  subst hb2
  refine ⟨l1, l2, hxs, fun c hc => ?_⟩
  have := hall c hc
  simpa using this

theorem dedupByLink_sub {xs : List Article} {b : Article} (h : b ∈ dedupByLink xs) :
    b ∈ xs := by
  obtain ⟨l1, l2, hxs, _⟩ := dedupByLink_mem_first h
  rw [hxs]
  simp

theorem dedupByLink_complete {xs : List Article} {a : Article} (ha : a ∈ xs) :
    ∃ b ∈ dedupByLink xs, b.link = a.link := by
  have hnot : ¬ jsFindIndex (fun x => x.link == a.link) xs = -1 := by
    rw [jsFindIndex_eq_neg_one]
    intro hall
    have := hall a ha
    simp at this
  have hge := jsFindIndex_ge (fun x => x.link == a.link) xs
  obtain ⟨i, hi⟩ : ∃ i : Nat, jsFindIndex (fun x => x.link == a.link) xs = (i : Int) :=
    ⟨(jsFindIndex (fun x => x.link == a.link) xs).toNat, by omega⟩
  obtain ⟨l1, b, l2, hxs, hlen, hb, hall⟩ := jsFindIndex_eq_some hi
  have hblink : b.link = a.link := by simpa using hb
  refine ⟨b, ?_, hblink⟩
  rw [dedupByLink]
  apply List.mem_map.mpr
  refine ⟨(i, b), ?_, rfl⟩
  apply List.mem_filter.mpr
  constructor
  · rw [hxs]
    have harith : i = 0 + l1.length := by omega
    rw [harith]
    exact withIdx_mem_of_decomp 0 l1 l2 b
  · show (jsFindIndex (fun x => x.link == b.link) xs == (i : Int)) = true
    have hpred : (fun x : Article => x.link == b.link) = (fun x : Article => x.link == a.link) := by
      funext x
      rw [hblink]
    rw [hpred, hi]
    simp

theorem dedupByLink_links_nodup (xs : List Article) :
    ((dedupByLink xs).map Article.link).Nodup := by
  rw [dedupByLink, List.map_map]
  apply List.Nodup.map_on
  · intro x hx y hy hlink
    obtain ⟨hx_in, hx_c⟩ := List.mem_filter.mp hx
    obtain ⟨hy_in, hy_c⟩ := List.mem_filter.mp hy
    have hlink' : x.2.link = y.2.link := hlink
    have hx_c' : jsFindIndex (fun q => q.link == x.2.link) xs = (x.1 : Int) := by
      simpa using hx_c
    have hy_c' : jsFindIndex (fun q => q.link == y.2.link) xs = (y.1 : Int) := by
      simpa using hy_c
    have hpred : (fun q : Article => q.link == x.2.link) =
        (fun q : Article => q.link == y.2.link) := by
      funext q
      rw [hlink']
    have hxy1 : (x.1 : Int) = (y.1 : Int) := by
      rw [← hx_c', hpred, hy_c']
    have hxy1' : x.1 = y.1 := by exact_mod_cast hxy1
    have hx2 : (x.1, x.2) ∈ withIdx 0 xs := by rwa [Prod.mk.eta]
    have hy2 : (x.1, y.2) ∈ withIdx 0 xs := by
      rw [hxy1']
      rwa [Prod.mk.eta]
    have hsnd := withIdx_functional hx2 hy2
    exact Prod.ext hxy1' hsnd
  · exact (withIdx_nodup 0 xs).filter _

theorem dedupByLink_length (xs : List Article) :
    (dedupByLink xs).length = (xs.map Article.link).toFinset.card := by
  have hnd := dedupByLink_links_nodup xs
  have hlen : (dedupByLink xs).length = ((dedupByLink xs).map Article.link).length := by
    simp
  rw [hlen, ← List.toFinset_card_of_nodup hnd]
  congr 1
  apply Finset.ext
  intro s
  simp only [List.mem_toFinset, List.mem_map]
  constructor
  · rintro ⟨b, hb, rfl⟩
    exact ⟨b, dedupByLink_sub hb, rfl⟩
  · rintro ⟨a, ha, rfl⟩
    obtain ⟨b, hb, hlink⟩ := dedupByLink_complete ha
    exact ⟨b, hb, hlink⟩

/-- C4 (amended).  The deduplication stage keeps, for each distinct `link`,
exactly the first item in encounter order: its output has exactly as many
entries as there are distinct links among its input, every output entry is
the first-encountered input item for its link, and every input link is
represented.  (The final pipeline output can be smaller than this: the
classifier afterwards drops non-AI articles and rewrites categories, see
the counterexample.) -/
theorem c4_dedup_first (xs : List Article) :
    (dedupByLink xs).length = (xs.map Article.link).toFinset.card ∧
    (∀ b ∈ dedupByLink xs, ∃ l1 l2, xs = l1 ++ b :: l2 ∧ ∀ c ∈ l1, c.link ≠ b.link) ∧
    (∀ a ∈ xs, ∃ b ∈ dedupByLink xs, b.link = a.link) :=
  ⟨dedupByLink_length xs, fun _ hb => dedupByLink_mem_first hb,
   fun _ ha => dedupByLink_complete ha⟩

/-- Witness for C4 at a concrete three-element list with one duplicated
link: two entries survive, and the surviving duplicate is the first
occurrence. -/
theorem c4_dedup_first_witness :
    (dedupByLink [articleT1, articleT2, { articleT2 with id := "dup", link := articleT1.link }]).length =
      (([articleT1, articleT2,
        { articleT2 with id := "dup", link := articleT1.link }].map Article.link).toFinset).card ∧
    (∃ l1 l2, [articleT1, articleT2, { articleT2 with id := "dup", link := articleT1.link }] =
      l1 ++ articleT1 :: l2 ∧ ∀ c ∈ l1, c.link ≠ articleT1.link) :=
  ⟨(c4_dedup_first _).1,
   (c4_dedup_first [articleT1, articleT2,
      { articleT2 with id := "dup", link := articleT1.link }]).2.1 articleT1 (by decide)⟩

/-- Counterexample for C4 as stated: one raw item (N = 1) with one unique
link (M = 1), but the processed pipeline output is empty, because the
classifier drops the article as not AI-related after deduplication — the
final output does not contain M entries. -/
theorem c4_counterexample :
    (([(⟨"Concrete bridges", "Stone and wood", "", "https://www.example.com/s", "50", ""⟩ :
        RawItem)].map RawItem.link).toFinset).card = 1 ∧
    (loadFeeds 0 emptyStorage
      [some [⟨"Concrete bridges", "Stone and wood", "", "https://www.example.com/s", "50", ""⟩]]).1.length
      = 0 := by
  refine ⟨by decide, by decide⟩
